import Mathlib

/-!
Shallow embedding of CIniFile (src/CIniFile/IniFile.c, IniFile.h).

C strings are modelled as `List Char` restricted to byte values; a NULL
`char*` argument is modelled as `none : Option (List Char)`.  `strlen`
stops at the first NUL byte, as in C.  Reading `line[i]` is modelled by
`cread?`: indices strictly inside the string give its characters, the
index of the terminator gives NUL, and any larger index is an
out-of-bounds access, modelled as `none`.  `size_t` subtraction wraps
modulo 2^64 (`sub1_64`).  The hash accumulator is a 64-bit signed
`long`, modelled as an `Int` wrapped to [-2^63, 2^63) after each step
(`wrap64`), and the C `%` operator on `long` is truncated remainder
(`Int.tmod`).
-/

def NUL : Char := Char.ofNat 0

/-- `strlen`: number of characters before the first NUL byte. -/
def strlen (s : List Char) : Nat := (s.takeWhile (fun c => c ≠ NUL)).length

/-- Reading `s[i]` from a NUL-terminated buffer: in-range indices give the
character, the terminator position gives NUL, anything further is an
out-of-bounds read (`none`). -/
def cread? (s : List Char) (i : Nat) : Option Char :=
  if i < strlen s then some (s.getD i NUL)
  else if i = strlen s then some NUL
  else none

/-- Total variant of `cread?` for the reads that are always in bounds
(index 0, and index 1 guarded by a non-NUL character at index 0). -/
def cread (s : List Char) (i : Nat) : Char := (cread? s i).getD NUL

/-- `size_t` decrement: `n - 1` computed modulo `2^64`, so `0 - 1`
underflows to `2^64 - 1` exactly as in the C code. -/
def sub1_64 (n : Nat) : Nat := (n + (2 ^ 64 - 1)) % 2 ^ 64

/- Comment marker characters, from IniFile.h. -/
def DM_INI_COMMENT_1 : Char := '#'
def DM_INI_COMMENT_2 : Char := ';'
def DM_INI_COMMENT_3 : Char := '/'
def DM_INI_COMMENT_4 : Char := '*'
def DM_LEFT_BRACKET : Char := '['
def DM_RIGHT_BRACKET : Char := ']'

/-- `__IniFile_IsLineCommented` from IniFile.c: NULL gives false; a line
whose first character is a newline, `#`, or `;` is commented, as is a
line starting with `//` or `/*`.  Only `line[0]` and (guarded) `line[1]`
are read, both always in bounds. -/
def __IniFile_IsLineCommented (line : Option (List Char)) : Bool :=
  match line with
  | none => false
  | some s =>
    if cread s 0 = '\n' then true
    else if cread s 0 = DM_INI_COMMENT_1 ∨ cread s 0 = DM_INI_COMMENT_2 then true
    else if cread s 0 = DM_INI_COMMENT_3 ∧ cread s 1 = DM_INI_COMMENT_3 then true
    else if cread s 0 = DM_INI_COMMENT_3 ∧ cread s 1 = DM_INI_COMMENT_4 then true
    else false

/-- `__IniFile_IsBeginBlockComment`: NULL gives false; otherwise the test
`line[0] == '/' && line[1] == '*'`, where `line[1]` is only read after
`line[0] == '/'` succeeded, hence in bounds. -/
def __IniFile_IsBeginBlockComment (line : Option (List Char)) : Bool :=
  match line with
  | none => false
  | some s => cread s 0 = DM_INI_COMMENT_3 ∧ cread s 1 = DM_INI_COMMENT_4

/-- `__IniFile_IsEndBlockComment`: NULL gives false; otherwise
`len = strlen(line) - 1` in `size_t` arithmetic and the test
`line[len-1] == '*' && line[len] == '/'`.  For strings of length 0 or 1
the index `len - 1` underflows and the read is out of bounds, modelled
as `none`. -/
def __IniFile_IsEndBlockComment (line : Option (List Char)) : Option Bool :=
  match line with
  | none => some false
  | some s =>
    let len := sub1_64 (strlen s)
    match cread? s (sub1_64 len) with
    | none => none
    | some c1 =>
      if c1 = DM_INI_COMMENT_4 then
        match cread? s len with
        | none => none
        | some c2 => some (decide (c2 = DM_INI_COMMENT_3))
      else some false

/-- `__IniFile_IsSectionDeclaration`: NULL gives false; otherwise
`line[0] == '[' && line[len] == ']'` with `len = strlen(line) - 1`.
`line[len]` is only read after `line[0] == '['`, which forces
`strlen ≥ 1`, so the read is in bounds. -/
def __IniFile_IsSectionDeclaration (line : Option (List Char)) : Bool :=
  match line with
  | none => false
  | some s =>
    let len := sub1_64 (strlen s)
    if cread s 0 = DM_LEFT_BRACKET then cread s len = DM_RIGHT_BRACKET
    else false

/-- `substring` from IniFile.c: fails (NULL) when the string is empty or
the requested range does not fit inside it; otherwise duplicates `len`
characters starting at `begin` (allocation modelled as succeeding). -/
def substring (str : List Char) (b len : Nat) : Option (List Char) :=
  let origLen := strlen str
  if origLen = 0 ∨ origLen < b ∨ origLen < b + len then none
  else some (((str.take origLen).drop b).take len)

/-- `__IniFile_GetSectionName`: NULL gives NULL; otherwise when
`line[0] == '[' && line[len] == ']'` (with `len = strlen - 1`) it
returns `substring(line, 1, len - 1)`, the text strictly between the
brackets, and NULL otherwise.  No error hint is ever set. -/
def __IniFile_GetSectionName (line : Option (List Char)) : Option (List Char) :=
  match line with
  | none => none
  | some s =>
    let len := sub1_64 (strlen s)
    if cread s 0 = DM_LEFT_BRACKET ∧ cread s len = DM_RIGHT_BRACKET then
      substring s 1 (sub1_64 len)
    else none

/- ### KeyHasher -/

/-- Value of a C `char` (signed on the reference platform): bytes below
128 are themselves, bytes 128-255 are negative. -/
def charVal (c : Char) : Int :=
  if c.toNat < 128 then (c.toNat : Int) else (c.toNat : Int) - 256

/-- Two's-complement wrap of an integer to the signed 64-bit range, the
behaviour of the C `long` accumulator on the reference platform. -/
def wrap64 (x : Int) : Int := (x + 2 ^ 63) % 2 ^ 64 - 2 ^ 63

/-- One step of the hash loop: `val = *s + 179 * val` on a 64-bit `long`. -/
def hashStep (v : Int) (c : Char) : Int := wrap64 (charVal c + 179 * v)

/-- The accumulator after the loop of `__IniFile_Hash`, starting at 1. -/
def hashAcc (s : List Char) : Int := s.foldl hashStep 1

/-- `__IniFile_Hash` from IniFile.c: the wrapped accumulator reduced by
the C `%` operator (truncated remainder) with `HASH_SIZE = 8675309`. -/
def __IniFile_Hash (s : List Char) : Int := Int.tmod (hashAcc s) 8675309

/-- One step of the ideal (unbounded) rolling hash described by the spec. -/
def specStep (v : Nat) (c : Char) : Nat := c.toNat + 179 * v

/-- Modelled from the spec: the ideal accumulator of the left-to-right
polynomial rolling hash, starting at 1, over unbounded integers. -/
def specAcc (s : List Char) : Nat := s.foldl specStep 1

/-- Modelled from the spec: the spec text of §4.2 — accumulator mod
8675309 with exact integer arithmetic. -/
def specHash (s : List Char) : Nat := specAcc s % 8675309

/- ### Error handling and file reading -/

/- Error message constants from IniFile.h.  The apostrophe of the first
message is elided, since only the presence of a fixed human-readable
text matters to the claims. -/
def DM_INI_ERROR_MESSAGE_FOPEN_FAIL : String :=
  "Cant open file for reading. Please check errno"
def DM_INI_ERROR_MESSAGE_MALLOC_FAIL : String :=
  "Couldnt allocate memory! This is bad."

/-- `IniErrorHint` from IniFile.h. -/
structure IniErrorHint where
  errorText : String
  errorCode : Int
deriving DecidableEq, Repr

/-- The global `__IniFile_ErrorHint` slot: `none` models the NULL
pointer (no current diagnostic). -/
def ErrSt := Option IniErrorHint

/-- `__IniFile_SetErrorHint`: if the slot is not allocated yet it is
allocated first (`hintAllocOk` says whether that `malloc` succeeds; on
failure the function silently does nothing); an existing or freshly
allocated slot is overwritten with the new message and code. -/
def __IniFile_SetErrorHint (hintAllocOk : Bool) (message : String) (code : Int)
    (st : ErrSt) : ErrSt :=
  match st with
  | some _ => some ⟨message, code⟩
  | none => if hintAllocOk then some ⟨message, code⟩ else none

/-- `__IniFile_ClearErrorHint`: frees the slot and resets it to NULL. -/
def __IniFile_ClearErrorHint (_st : ErrSt) : ErrSt := none

/-- `IniFile_GetErrorHint`: returns the current slot. -/
def IniFile_GetErrorHint (st : ErrSt) : ErrSt := st

/-- `IniItem` from IniFile.h. -/
structure IniItem where
  key : List Char
  value : List Char
deriving DecidableEq, Repr

/-- `IniSection` from IniFile.h (the item list modelled as a Lean list). -/
structure IniSection where
  name : List Char
  itemList : List IniItem
deriving DecidableEq, Repr

/-- `IniFile` from IniFile.h. -/
structure IniFile where
  globalList : List IniItem
  sectionList : List IniSection
deriving DecidableEq, Repr

/-- The environment a call runs in: which allocations succeed, whether
`fopen` succeeds (and with which lines), and the OS `errno` reported on
an open failure. -/
structure World where
  itemAllocOk : Bool
  bufferAllocOk : Bool
  hintAllocOk : Bool
  openResult : Option (List String)
  osErrno : Int

/-- `IniItem_Initialize`: clears the error hint, then allocates an item;
on allocation failure it sets the malloc error with code 5 and returns
NULL.  (A fresh `malloc` result is uninitialized; the model returns the
empty item.) -/
def IniItem_Initialize (w : World) (st : ErrSt) : Option IniItem × ErrSt :=
  let st1 := __IniFile_ClearErrorHint st
  if w.itemAllocOk then (some ⟨[], []⟩, st1)
  else (none, __IniFile_SetErrorHint w.hintAllocOk DM_INI_ERROR_MESSAGE_MALLOC_FAIL 5 st1)

/-- `IniSection_Initialize`: clears the error hint, then allocates a
section; on allocation failure it sets the malloc error with code 6 and
returns NULL. -/
def IniSection_Initialize (w : World) (st : ErrSt) : Option IniSection × ErrSt :=
  let st1 := __IniFile_ClearErrorHint st
  if w.itemAllocOk then (some ⟨[], []⟩, st1)
  else (none, __IniFile_SetErrorHint w.hintAllocOk DM_INI_ERROR_MESSAGE_MALLOC_FAIL 6 st1)

/-- `IniFile_ReadFile` from IniFile.c: clears the error hint, allocates
the line buffer (code 7 malloc error on failure, but execution
continues), opens the file — on failure sets the fopen error carrying
the OS `errno` and returns NULL — then reads every line in a loop,
discarding each one, and returns NULL unconditionally. -/
def IniFile_ReadFile (w : World) (st : ErrSt) : Option IniFile × ErrSt :=
  let st1 := __IniFile_ClearErrorHint st
  let st2 :=
    if w.bufferAllocOk then st1
    else __IniFile_SetErrorHint w.hintAllocOk DM_INI_ERROR_MESSAGE_MALLOC_FAIL 7 st1
  match w.openResult with
  | none =>
    (none, __IniFile_SetErrorHint w.hintAllocOk DM_INI_ERROR_MESSAGE_FOPEN_FAIL w.osErrno st2)
  | some _lines => (none, st2)

/-! ## Helper lemmas -/

theorem le_foldl_specStep (s : List Char) : ∀ v : Nat, v ≤ List.foldl specStep v s := by
  induction s with
  | nil => intro v; simp
  | cons c t ih =>
    intro v
    have h1 : v ≤ specStep v c := by
      unfold specStep
      omega
    calc v ≤ specStep v c := h1
      _ ≤ List.foldl specStep (specStep v c) t := ih _

theorem wrap64_eq (x : Int) (h0 : 0 ≤ x) (h1 : x < 2 ^ 63) : wrap64 x = x := by
  unfold wrap64
  rw [Int.emod_eq_of_lt (by omega) (by omega)]
  omega

theorem foldl_hash_eq_spec (s : List Char) : ∀ v : Nat,
    (∀ c ∈ s, c.toNat < 128) → List.foldl specStep v s < 2 ^ 63 →
    List.foldl hashStep (v : Int) s = ((List.foldl specStep v s : Nat) : Int) := by
  induction s with
  | nil => intro v _ _; simp
  | cons c t ih =>
    intro v hascii hlt
    have hc : c.toNat < 128 := hascii c (by simp)
    have hstep : List.foldl specStep v (c :: t) = List.foldl specStep (specStep v c) t := by
      simp
    have hv' : specStep v c ≤ List.foldl specStep (specStep v c) t := le_foldl_specStep t _
    have hlt' : specStep v c < 2 ^ 63 := by
      rw [hstep] at hlt
      omega
    have hcv : charVal c = (c.toNat : Int) := by
      unfold charVal
      simp [hc]
    have hwrap : hashStep (v : Int) c = ((specStep v c : Nat) : Int) := by
      unfold hashStep specStep
      rw [hcv]
      have harg : (c.toNat : Int) + 179 * (v : Int) = ((c.toNat + 179 * v : Nat) : Int) := by
        push_cast
        ring
      rw [harg]
      exact wrap64_eq _ (by positivity) (by exact_mod_cast hlt')
    calc List.foldl hashStep (v : Int) (c :: t)
        = List.foldl hashStep (hashStep (v : Int) c) t := by simp
      _ = List.foldl hashStep ((specStep v c : Nat) : Int) t := by rw [hwrap]
      _ = ((List.foldl specStep (specStep v c) t : Nat) : Int) := by
          refine ih _ (fun d hd => hascii d (by simp [hd])) ?_
          rw [hstep] at hlt
          exact hlt
      _ = ((List.foldl specStep v (c :: t) : Nat) : Int) := by rw [hstep]

theorem tmod_8675309_bounds (a : Int) :
    -8675309 < Int.tmod a 8675309 ∧ Int.tmod a 8675309 < 8675309 := by
  cases a with
  | ofNat m =>
    have h : Int.tmod (Int.ofNat m) 8675309 = Int.ofNat (m % 8675309) := rfl
    have hm : m % 8675309 < 8675309 := Nat.mod_lt m (by norm_num)
    rw [h, Int.ofNat_eq_natCast]
    omega
  | negSucc m =>
    have h : Int.tmod (Int.negSucc m) 8675309 = -Int.ofNat ((m + 1) % 8675309) := rfl
    have hm : (m + 1) % 8675309 < 8675309 := Nat.mod_lt (m + 1) (by norm_num)
    rw [h, Int.ofNat_eq_natCast]
    omega

/-! ## Claims about the hash -/

/-- C1 (amended): `Hash` matches the ideal left-to-right polynomial
rolling hash (accumulator starting at 1, step `c + 179 * acc`, result
mod 8675309 over exact integers) exactly when the ideal accumulator
stays below `2^63`, so that the 64-bit `long` never wraps; in
particular `Hash "a" = 276` and `Hash "ab" = 49502`.  Determinism holds
because the function reads nothing but its argument. -/
theorem hash_matches_ideal_spec :
    __IniFile_Hash ['a'] = 276 ∧ __IniFile_Hash ['a', 'b'] = 49502 ∧
    ∀ s : List Char, (∀ c ∈ s, c.toNat < 128) → specAcc s < 2 ^ 63 →
      __IniFile_Hash s = (specHash s : Int) := by
  refine ⟨by decide, by decide, ?_⟩
  intro s hascii hlt
  unfold __IniFile_Hash specHash hashAcc specAcc
  unfold specAcc at hlt
  have h := foldl_hash_eq_spec s 1 hascii hlt
  rw [show ((1 : Nat) : Int) = (1 : Int) from rfl] at h
  rw [h]
  show Int.tmod (Int.ofNat (List.foldl specStep 1 s)) (Int.ofNat 8675309)
      = Int.ofNat (List.foldl specStep 1 s % 8675309)
  rfl

/-- C1 witness: the amended general statement instantiated at "ab". -/
theorem hash_matches_ideal_spec_witness :
    (∀ c ∈ ['a', 'b'], c.toNat < 128) ∧ specAcc ['a', 'b'] < 2 ^ 63 ∧
      __IniFile_Hash ['a', 'b'] = (specHash ['a', 'b'] : Int) :=
  ⟨by decide, by decide, hash_matches_ideal_spec.2.2 ['a', 'b'] (by decide) (by decide)⟩

set_option maxRecDepth 4000 in
/-- C1 counterexample: the claim as stated fails in two independent
ways, each forcing one restriction of the amended claim.  On ten
letters a the 64-bit accumulator wraps, so `Hash` (8530692) differs
from the ideal rolling hash mod 8675309 (1451725).  And on the single
byte 200 the ideal accumulator is only 379, far below `2^63`, yet the
signed `char` contributes -56 instead of 200, so `Hash` returns 123
while the ideal value is 379 — the agreement also needs every byte to
be ASCII (below 128). -/
theorem hash_deviates_from_ideal_spec :
    (__IniFile_Hash (List.replicate 10 'a') ≠
      (specHash (List.replicate 10 'a') : Int)) ∧
    (specAcc [Char.ofNat 200] < 2 ^ 63 ∧
      __IniFile_Hash [Char.ofNat 200] ≠ (specHash [Char.ofNat 200] : Int)) := by
  refine ⟨by decide, by decide, by decide⟩

/-- C9 (amended): the result of `Hash` always lies strictly between
-8675309 and 8675309 (C truncated remainder can be negative once the
accumulator wraps negative), rather than being non-negative. -/
theorem hash_range_symmetric (s : List Char) :
    -8675309 < __IniFile_Hash s ∧ __IniFile_Hash s < 8675309 := by
  unfold __IniFile_Hash
  exact tmod_8675309_bounds (hashAcc s)

set_option maxRecDepth 4000 in
/-- C9 counterexample: on nine letters a the accumulator wraps to a
negative 64-bit value and the C `%` operator keeps the sign, so `Hash`
returns -6931339, a negative number — the claimed non-negativity fails. -/
theorem hash_can_be_negative : __IniFile_Hash (List.replicate 9 'a') < 0 := by
  decide

theorem cread_zero (s : List Char) : cread s 0 = s.headD NUL := by
  cases s with
  | nil => rfl
  | cons c t =>
    unfold cread cread? strlen
    by_cases hc : c = NUL
    · subst hc
      simp [List.takeWhile_cons]
    · simp [List.takeWhile_cons, hc]

theorem cread_one (s : List Char) (h : s.headD NUL ≠ NUL) : cread s 1 = s.getD 1 NUL := by
  match s with
  | [] => exact absurd rfl h
  | [c] =>
    have hc : c ≠ NUL := h
    unfold cread cread? strlen
    simp [List.takeWhile_cons, hc]
  | c :: d :: t =>
    have hc : c ≠ NUL := h
    unfold cread cread? strlen
    by_cases hd : d = NUL
    · subst hd
      simp [List.takeWhile_cons, hc]
    · simp [List.takeWhile_cons, hc, hd]

theorem cread_one_single (c : Char) : cread [c] 1 = NUL := by
  by_cases hc : c = NUL
  · subst hc
    rfl
  · unfold cread cread? strlen
    simp [List.takeWhile_cons, hc]

theorem cread?_lt (s : List Char) (i : Nat) (h : i < strlen s) :
    cread? s i = some (s.getD i NUL) := by
  unfold cread?
  simp [h]

theorem cread_lt (s : List Char) (i : Nat) (h : i < strlen s) :
    cread s i = s.getD i NUL := by
  unfold cread
  rw [cread?_lt s i h]
  rfl

theorem cread?_oob (s : List Char) (i : Nat) (h : strlen s < i) : cread? s i = none := by
  unfold cread?
  have h1 : ¬ i < strlen s := by omega
  have h2 : ¬ i = strlen s := by omega
  simp [h1, h2]

theorem sub1_64_eq (n : Nat) (h1 : 1 ≤ n) (h2 : n < 2 ^ 64) : sub1_64 n = n - 1 := by
  unfold sub1_64
  have h3 : n + (2 ^ 64 - 1) = (n - 1) + 1 * 2 ^ 64 := by omega
  rw [h3, Nat.add_mul_mod_self_right, Nat.mod_eq_of_lt (by omega)]

theorem strlen_eq_length (s : List Char) (hn : NUL ∉ s) : strlen s = s.length := by
  unfold strlen
  induction s with
  | nil => rfl
  | cons c t ih =>
    have hc : c ≠ NUL := fun h => hn (h ▸ List.mem_cons_self c t)
    have ht : NUL ∉ t := fun h => hn (List.mem_cons_of_mem c h)
    simp [List.takeWhile_cons, hc]
    simpa using ih ht

theorem getLast?_eq_getD (s : List Char) (h : s ≠ []) :
    s.getLast? = some (s.getD (s.length - 1) NUL) := by
  have hlen : 0 < s.length := List.length_pos.mpr h
  rw [List.getLast?_eq_getElem?, List.getD_eq_getElem?_getD,
    List.getElem?_eq_getElem (by omega)]
  rfl

theorem isLineCommented_eval (s : List Char) :
    __IniFile_IsLineCommented (some s) =
      (if s.headD NUL = '\n' then true
       else if s.headD NUL = '#' ∨ s.headD NUL = ';' then true
       else if s.headD NUL = '/' ∧ cread s 1 = '/' then true
       else if s.headD NUL = '/' ∧ cread s 1 = '*' then true
       else false) := by
  unfold __IniFile_IsLineCommented
  show (if cread s 0 = '\n' then true
    else if cread s 0 = DM_INI_COMMENT_1 ∨ cread s 0 = DM_INI_COMMENT_2 then true
    else if cread s 0 = DM_INI_COMMENT_3 ∧ cread s 1 = DM_INI_COMMENT_3 then true
    else if cread s 0 = DM_INI_COMMENT_3 ∧ cread s 1 = DM_INI_COMMENT_4 then true
    else false) = _
  rw [cread_zero]
  rfl

/-! ## Claims about the line classifiers -/

/-- C3 counterexample: the empty string is not classified as commented —
the blank-line check tests `line[0] == '\n'`, and an empty C string has
NUL at index 0, so every check fails and the function returns false,
while the claim says the empty line is treated as a comment. -/
theorem isLineCommented_empty_is_false : __IniFile_IsLineCommented (some []) = false := by
  decide

/-- C3 (amended): `IsLineCommented` returns true exactly when the line
starts with a newline (a blank line), `#`, `;`, `//`, or `/*`; the empty
string satisfies none of these and yields false, and a plain key=value
line also yields false. -/
theorem isLineCommented_iff (s : List Char) :
    __IniFile_IsLineCommented (some s) = true ↔
      s.head? = some '\n' ∨ s.head? = some '#' ∨ s.head? = some ';' ∨
      s.take 2 = ['/', '/'] ∨ s.take 2 = ['/', '*'] := by
  rw [isLineCommented_eval]
  match s with
  | [] => decide
  | [c] =>
    rw [cread_one_single]
    have h1 : (NUL : Char) ≠ '/' := by decide
    have h2 : (NUL : Char) ≠ '*' := by decide
    split_ifs <;> simp_all
  | c :: d :: t =>
    by_cases hc : c = NUL
    · subst hc
      have h1 : (NUL : Char) ≠ '\n' := by decide
      have h2 : (NUL : Char) ≠ '#' := by decide
      have h3 : (NUL : Char) ≠ ';' := by decide
      have h4 : (NUL : Char) ≠ '/' := by decide
      split_ifs <;> simp_all
    · have h1 : cread (c :: d :: t) 1 = d := cread_one _ hc
      rw [h1]
      split_ifs <;> simp_all
      tauto

/-- C4 counterexample: the code compares the literal last two characters
of the line, with no stripping of a trailing newline, so the line
"much */" ends the block comment but the same line followed by a
newline does not — contradicting the claim that both return true. -/
theorem isEndBlockComment_ignores_trailing_newline :
    __IniFile_IsEndBlockComment (some ['m', 'u', 'c', 'h', ' ', '*', '/']) = some true ∧
    __IniFile_IsEndBlockComment (some ['m', 'u', 'c', 'h', ' ', '*', '/', '\n']) = some false := by
  decide

/-- C4 (amended): for every line of length at least two (below the
`size_t` range), `IsEndBlockComment` returns true exactly when the two
literal last characters of the line are `*` then `/`; a trailing
newline is not skipped. -/
theorem isEndBlockComment_eval (s : List Char) (h2 : 2 ≤ strlen s)
    (hb : strlen s < 2 ^ 64) :
    __IniFile_IsEndBlockComment (some s) =
      some (decide (s.getD (strlen s - 2) NUL = '*') &&
        decide (s.getD (strlen s - 1) NUL = '/')) := by
  have hlen : sub1_64 (strlen s) = strlen s - 1 := sub1_64_eq _ (by omega) hb
  have hlen2 : sub1_64 (strlen s - 1) = strlen s - 2 := by
    have h := sub1_64_eq (strlen s - 1) (by omega) (by omega)
    omega
  show (match cread? s (sub1_64 (sub1_64 (strlen s))) with
    | none => none
    | some c1 =>
      if c1 = DM_INI_COMMENT_4 then
        match cread? s (sub1_64 (strlen s)) with
        | none => none
        | some c2 => some (decide (c2 = DM_INI_COMMENT_3))
      else some false) = _
  rw [hlen, hlen2, cread?_lt s (strlen s - 2) (by omega),
    cread?_lt s (strlen s - 1) (by omega)]
  simp only [DM_INI_COMMENT_4, DM_INI_COMMENT_3]
  by_cases hstar : s.getD (strlen s - 2) NUL = '*'
  · rw [if_pos hstar, hstar]
    simp
  · rw [if_neg hstar]
    rw [List.getD_eq_getElem?_getD] at hstar
    simp [hstar]

/-- C4 witness: the amended statement instantiated at "much */". -/
theorem isEndBlockComment_eval_witness :
    2 ≤ strlen ['m', 'u', 'c', 'h', ' ', '*', '/'] ∧
    strlen ['m', 'u', 'c', 'h', ' ', '*', '/'] < 2 ^ 64 ∧
    __IniFile_IsEndBlockComment (some ['m', 'u', 'c', 'h', ' ', '*', '/']) =
      some (decide (List.getD ['m', 'u', 'c', 'h', ' ', '*', '/']
          (strlen ['m', 'u', 'c', 'h', ' ', '*', '/'] - 2) NUL = '*') &&
        decide (List.getD ['m', 'u', 'c', 'h', ' ', '*', '/']
          (strlen ['m', 'u', 'c', 'h', ' ', '*', '/'] - 1) NUL = '/')) :=
  ⟨by decide, by decide, isEndBlockComment_eval _ (by decide) (by decide)⟩

/-- C6: on a one-character line the begin-block and section checks do
return false with all reads in bounds, but `IsEndBlockComment` computes
`len = strlen - 1 = 0` and reads `line[len - 1]`, where the `size_t`
index underflows to `2^64 - 1` — an out-of-bounds read (`none` in the
model) instead of the claimed short-circuit to false. -/
theorem one_char_line_classifiers :
    __IniFile_IsBeginBlockComment (some ['x']) = false ∧
    __IniFile_IsSectionDeclaration (some ['x']) = false ∧
    __IniFile_IsEndBlockComment (some ['x']) = none := by
  decide

/-- C10: every line classifier short-circuits on a NULL line without
reading it: the boolean classifiers return false and `GetSectionName`
returns NULL. -/
theorem classifiers_on_null_line :
    __IniFile_IsLineCommented none = false ∧
    __IniFile_IsBeginBlockComment none = false ∧
    __IniFile_IsEndBlockComment none = some false ∧
    __IniFile_IsSectionDeclaration none = false ∧
    __IniFile_GetSectionName none = none :=
  ⟨rfl, rfl, rfl, rfl, rfl⟩

theorem substring_spec (str : List Char) (b len : Nat) (h1 : strlen str ≠ 0)
    (h2 : b + len ≤ strlen str) :
    substring str b len = some (((str.take (strlen str)).drop b).take len) := by
  unfold substring
  have h3 : ¬ (strlen str = 0 ∨ strlen str < b ∨ strlen str < b + len) := by omega
  simp only [if_neg h3]

/-- C5 counterexample: on the line "[s]" followed by a trailing newline
the claim deems `IsSectionDeclaration` to hold (first character `[`,
last non-newline character `]`) and so requires the name "s"; but the
code compares the literal last character, the newline, against `]` and
returns NULL — with no diagnostic of any kind, since
`__IniFile_GetSectionName` never touches the error hint. -/
theorem getSectionName_newline_gives_none :
    __IniFile_GetSectionName (some ['[', 's', ']', '\n']) = none := by
  decide

/-- C5 (amended): for every NUL-free line (of `size_t` length),
`GetSectionName` returns the text strictly between the brackets when
the literal first character is `[` and the literal last character is
`]` (no newline skipping), and NULL otherwise; no error condition is
signalled in either case — the function does not write the error hint.
In particular GetSectionName("[section1]") = "section1". -/
theorem getSectionName_eval (s : List Char) (hn : NUL ∉ s) (hb : s.length < 2 ^ 64) :
    __IniFile_GetSectionName (some s) =
      if s.head? = some '[' ∧ s.getLast? = some ']' then
        some ((s.drop 1).take (s.length - 2))
      else none := by
  have hsl : strlen s = s.length := strlen_eq_length s hn
  cases s with
  | nil => decide
  | cons c t =>
    have hlen : sub1_64 (strlen (c :: t)) = (c :: t).length - 1 := by
      rw [hsl]
      exact sub1_64_eq _ (by simp) hb
    have hhead : cread (c :: t) 0 = c := by
      rw [cread_zero]
      rfl
    have hlast : cread (c :: t) ((c :: t).length - 1) =
        (c :: t).getD ((c :: t).length - 1) NUL := by
      apply cread_lt
      rw [hsl]
      simp
    have hlast2 : (c :: t).getLast? = some ((c :: t).getD ((c :: t).length - 1) NUL) :=
      getLast?_eq_getD _ (by simp)
    show (if cread (c :: t) 0 = DM_LEFT_BRACKET ∧
        cread (c :: t) (sub1_64 (strlen (c :: t))) = DM_RIGHT_BRACKET then
      substring (c :: t) 1 (sub1_64 (sub1_64 (strlen (c :: t))))
    else none) = _
    rw [hlen, hhead, hlast]
    by_cases hcond : c = DM_LEFT_BRACKET ∧
        (c :: t).getD ((c :: t).length - 1) NUL = DM_RIGHT_BRACKET
    · rw [if_pos hcond]
      have hrhs : (c :: t).head? = some '[' ∧ (c :: t).getLast? = some ']' := by
        constructor
        · exact congrArg some (hcond.1.trans rfl)
        · rw [hlast2, hcond.2]
          rfl
      rw [if_pos hrhs]
      have hlen2 : 2 ≤ (c :: t).length := by
        rcases t with _ | ⟨d, u⟩
        · exfalso
          have h1 := hcond.1
          have h2 := hcond.2
          simp [List.getD] at h2
          exact absurd (h1.symm.trans h2) (by decide)
        · simp
      have hlen3 : sub1_64 ((c :: t).length - 1) = (c :: t).length - 2 := by
        have h := sub1_64_eq ((c :: t).length - 1) (by omega) (by omega)
        omega
      rw [hlen3, substring_spec _ _ _ (by omega) (by omega), hsl, List.take_length]
    · rw [if_neg hcond]
      have hrhs : ¬ ((c :: t).head? = some '[' ∧ (c :: t).getLast? = some ']') := by
        intro hcontra
        refine hcond ⟨?_, ?_⟩
        · have h : some c = some '[' := hcontra.1
          exact (Option.some.inj h).trans rfl
        · have h := hcontra.2
          rw [hlast2] at h
          exact (Option.some.inj h).trans rfl
      rw [if_neg hrhs]

/-- C5 witness: the amended statement instantiated at "[section1]",
whose section name is "section1". -/
theorem getSectionName_eval_witness :
    NUL ∉ ['[', 's', 'e', 'c', 't', 'i', 'o', 'n', '1', ']'] ∧
    List.length ['[', 's', 'e', 'c', 't', 'i', 'o', 'n', '1', ']'] < 2 ^ 64 ∧
    __IniFile_GetSectionName (some ['[', 's', 'e', 'c', 't', 'i', 'o', 'n', '1', ']']) =
      if List.head? ['[', 's', 'e', 'c', 't', 'i', 'o', 'n', '1', ']'] = some '[' ∧
          List.getLast? ['[', 's', 'e', 'c', 't', 'i', 'o', 'n', '1', ']'] = some ']' then
        some ((List.drop 1 ['[', 's', 'e', 'c', 't', 'i', 'o', 'n', '1', ']']).take
          (List.length ['[', 's', 'e', 'c', 't', 'i', 'o', 'n', '1', ']'] - 2))
      else none :=
  ⟨by decide, by decide, getSectionName_eval _ (by decide) (by decide)⟩

/-! ## Claims about reading files and diagnostics -/

/-- C2: the parsing stage of `IniFile_ReadFile` is unimplemented — the
function reads and discards every line and returns NULL unconditionally.
Even for a readable file with the well-formed contents "[s]\nk=v\n" and
all allocations succeeding, no model is produced, contradicting the
claimed round-trip; the first conjunct evaluates the failing input, the
second shows no input can do better. -/
theorem readFile_never_returns_a_model :
    (IniFile_ReadFile ⟨true, true, true, some ["[s]\n", "k=v\n"], 0⟩ none).1 = none ∧
    ∀ (w : World) (st : ErrSt), (IniFile_ReadFile w st).1 = none := by
  refine ⟨rfl, fun w st => ?_⟩
  unfold IniFile_ReadFile
  cases hw : w.openResult <;> rfl

/-- C7: when the line buffer allocates but the file cannot be opened,
`ReadFile` returns NULL and the error hint read immediately afterwards
carries the fixed human-readable open-failure text together with the OS
`errno` of the failed open. -/
theorem readFile_open_failure_sets_errno (w : World) (st : ErrSt)
    (hopen : w.openResult = none) (hbuf : w.bufferAllocOk = true)
    (hhint : w.hintAllocOk = true) :
    (IniFile_ReadFile w st).1 = none ∧
    IniFile_GetErrorHint (IniFile_ReadFile w st).2 =
      some ⟨DM_INI_ERROR_MESSAGE_FOPEN_FAIL, w.osErrno⟩ := by
  unfold IniFile_ReadFile IniFile_GetErrorHint
  rw [hopen, hbuf, hhint]
  exact ⟨rfl, rfl⟩

/-- C7 witness: a world in which the open fails with the file-not-found
code ENOENT = 2 (the "/nonexistent/path" scenario). -/
theorem readFile_open_failure_witness :
    (⟨true, true, true, none, 2⟩ : World).openResult = none ∧
    (⟨true, true, true, none, 2⟩ : World).bufferAllocOk = true ∧
    (⟨true, true, true, none, 2⟩ : World).hintAllocOk = true ∧
    ((IniFile_ReadFile ⟨true, true, true, none, 2⟩ (some ⟨"stale", 99⟩)).1 = none ∧
      IniFile_GetErrorHint (IniFile_ReadFile ⟨true, true, true, none, 2⟩
          (some ⟨"stale", 99⟩)).2 =
        some ⟨DM_INI_ERROR_MESSAGE_FOPEN_FAIL, 2⟩) :=
  ⟨rfl, rfl, rfl, readFile_open_failure_sets_errno _ (some ⟨"stale", 99⟩) rfl rfl rfl⟩

/-- C8: each fallible public operation (`ReadFile`,
`IniItem_Initialize`, `IniSection_Initialize`) first clears any prior
diagnostic, so its behaviour does not depend on the previous slot
contents; `SetErrorHint` overwrites the single slot (last write wins)
and `ClearErrorHint` empties it; and after a failing initializer call
the slot holds exactly that call's error (malloc message, codes 5
and 6), never a stale one. -/
theorem diagnostics_cleared_and_last_write_wins :
    (∀ (w : World) (st : ErrSt), IniFile_ReadFile w st = IniFile_ReadFile w none) ∧
    (∀ (w : World) (st : ErrSt), IniItem_Initialize w st = IniItem_Initialize w none) ∧
    (∀ (w : World) (st : ErrSt),
      IniSection_Initialize w st = IniSection_Initialize w none) ∧
    (∀ (st : ErrSt) (m m2 : String) (c c2 : Int),
      __IniFile_SetErrorHint true m2 c2 (__IniFile_SetErrorHint true m c st) =
        some ⟨m2, c2⟩) ∧
    (∀ st : ErrSt, __IniFile_ClearErrorHint st = none) ∧
    (∀ (w : World) (st : ErrSt), w.itemAllocOk = false → w.hintAllocOk = true →
      (IniItem_Initialize w st).2 = some ⟨DM_INI_ERROR_MESSAGE_MALLOC_FAIL, 5⟩) ∧
    (∀ (w : World) (st : ErrSt), w.itemAllocOk = false → w.hintAllocOk = true →
      (IniSection_Initialize w st).2 = some ⟨DM_INI_ERROR_MESSAGE_MALLOC_FAIL, 6⟩) := by
  refine ⟨fun w st => rfl, fun w st => rfl, fun w st => rfl,
    fun st m m2 c c2 => ?_, fun st => rfl, fun w st hi hh => ?_, fun w st hi hh => ?_⟩
  · cases st <;> rfl
  · unfold IniItem_Initialize
    rw [hi, hh]
    rfl
  · unfold IniSection_Initialize
    rw [hi, hh]
    rfl

/-- C8 witness: the failing-initializer conjunct instantiated at a world
whose item allocation fails, starting from a stale diagnostic. -/
theorem diagnostics_witness :
    (IniItem_Initialize ⟨false, true, true, none, 0⟩ (some ⟨"stale", 1⟩)).2 =
      some ⟨DM_INI_ERROR_MESSAGE_MALLOC_FAIL, 5⟩ :=
  diagnostics_cleared_and_last_write_wins.2.2.2.2.2.1
    ⟨false, true, true, none, 0⟩ (some ⟨"stale", 1⟩) rfl rfl
